import Mathlib

set_option autoImplicit false

/-!
Shallow embedding of the core of rabbit-digger-pro for specification checking.

Embedded components:
* `src/apir/src/virtual_host.rs` — the in-process virtual host: the port
  registry (`Inner`), port allocation (`next_port` / `get_port`), the address
  check, `tcp_bind` / `tcp_connect` / `udp_bind`, the stream pipe read/write
  path, `recv_from`, and `shutdown`.  Addresses are modelled as IPv4 only
  (`a.b.c.d` with a port); all behaviours proved are on IPv4 inputs.
* `src/remote/src/server.rs` — the accept-map of the remote tunnel server.
* `src/src/controller.rs` — the event drainer's batching loop.
* `src/rd-std/src/builtin/forward.rs` — the forward server's UDP channel.

Machine integers (`u16`, `u64`) are `Nat` with explicit `% 2 ^ 64` where the
source can overflow; fallible operations return `Except`/`Option`; a Rust
panic is an explicit result constructor.
-/

namespace RDP

/-! ## Addresses (std::net::SocketAddr, IPv4 fragment) -/

/-- IPv4 address `a.b.c.d`. -/
structure IpAddr where
  a : Nat
  b : Nat
  c : Nat
  d : Nat
deriving DecidableEq, Repr

/-- `Ipv4Addr::is_loopback`: the 127.0.0.0/8 block. -/
def IpAddr.is_loopback (ip : IpAddr) : Bool := ip.a == 127

/-- `Ipv4Addr::is_unspecified`: 0.0.0.0. -/
def IpAddr.is_unspecified (ip : IpAddr) : Bool :=
  ip.a == 0 && ip.b == 0 && ip.c == 0 && ip.d == 0

/-- `SocketAddr`: an IP and a port. -/
structure SocketAddr where
  ip : IpAddr
  port : Nat
deriving DecidableEq, Repr

/-- `Ipv4Addr::new(127, 0, 0, 1)`, the address every `Port` renders to. -/
def localhost : IpAddr := ⟨127, 0, 0, 1⟩

/-! ## Virtual host registry (virtual_host.rs) -/

/-- `enum Protocol { Tcp, Udp }` -/
inductive Protocol where
  | tcp
  | udp
deriving DecidableEq, Repr

/-- `struct Port(Protocol, u16)` -/
structure Port where
  protocol : Protocol
  num : Nat
deriving DecidableEq, Repr

/-- `impl Into<SocketAddr> for Port`: always `127.0.0.1:port`. -/
def Port.toSocketAddr (p : Port) : SocketAddr := ⟨localhost, p.num⟩

/-- `struct TcpData { buf, local_addr, peer_addr }`.  `buf` is the carry
buffer (a `VecDeque<u8>`), modelled as the list of its bytes. -/
structure TcpData where
  buf : List Nat
  local_addr : Port
  peer_addr : Port
deriving DecidableEq, Repr

/-- `TcpData::swap`: exchange local and peer address. -/
def TcpData.swap (d : TcpData) : TcpData :=
  { d with local_addr := d.peer_addr, peer_addr := d.local_addr }

/-- `enum Value`.  A listener value carries its pending accept queue (in the
source the queue lives in the listener pipe's channel whose send half is the
stored `Value`; the queue content is the channel's in-flight items).  A UDP
value carries its datagram queue likewise. -/
inductive Value where
  | tcpStream (data : TcpData)
  | tcpListener (pending : List TcpData)
  | udpSocket (queue : List (List Nat × SocketAddr))
deriving DecidableEq, Repr

/-- `BTreeMap::contains_key` on the registry. -/
def containsKey (ports : List (Port × Value)) (k : Port) : Bool :=
  ports.any (fun kv => kv.1 == k)

/-- `BTreeMap::get` on the registry (first matching key; keys are unique in
every reachable registry). -/
def lookupKey (ports : List (Port × Value)) (k : Port) : Option Value :=
  (ports.find? (fun kv => kv.1 == k)).map Prod.snd

/-- `BTreeMap::insert`: replace any existing entry for the key. -/
def insertKey (ports : List (Port × Value)) (k : Port) (v : Value) :
    List (Port × Value) :=
  ports.filter (fun kv => !(kv.1 == k)) ++ [(k, v)]

/-- In-place update of the value stored at a key (`get_mut` followed by a
mutation of the found value). -/
def updateKey (ports : List (Port × Value)) (k : Port) (f : Value → Value) :
    List (Port × Value) :=
  ports.map (fun kv => if kv.1 == k then (kv.1, f kv.2) else kv)

/-- `struct Inner { ports: BTreeMap<Port, Value>, next_port: u16 }` -/
structure Inner where
  ports : List (Port × Value)
  next_port : Nat
deriving DecidableEq, Repr

/-- `VirtualHost::new()`'s registry: empty table, `next_port = 1`. -/
def Inner.new : Inner := ⟨[], 1⟩

/-- Error kinds surfaced by the embedded operations
(`std::io::ErrorKind` values used by virtual_host.rs). -/
inductive IoErrorKind where
  | addrInUse
  | addrNotAvailable
  | connectionRefused
  | connectionAborted
  | brokenPipe
deriving DecidableEq, Repr

/-- The loop body of `Inner::next_port`:
`while self.ports.contains_key(&Port(protocol, self.next_port)) { self.next_port += 1 }`.
`fuel` bounds the iteration count; `ports.length + 1` iterations always
suffice (`nextPortLoop_spec` below). -/
def nextPortLoop (ports : List (Port × Value)) (protocol : Protocol) :
    Nat → Nat → Nat
  | 0, start => start
  | fuel + 1, start =>
    if containsKey ports ⟨protocol, start⟩ then
      nextPortLoop ports protocol fuel (start + 1)
    else start

/-- `Inner::next_port(protocol)`: advance `self.next_port` past occupied
ports of `protocol` and return it (the source mutates `self.next_port`; the
model returns the updated state). -/
def Inner.nextPort (inner : Inner) (protocol : Protocol) : Nat × Inner :=
  let p := nextPortLoop inner.ports protocol (inner.ports.length + 1)
    inner.next_port
  (p, { inner with next_port := p })

/-- `Inner::get_port(protocol, port)`.  Note the source passes
`Protocol::Udp` to `next_port` regardless of the `protocol` argument. -/
def Inner.get_port (inner : Inner) (protocol : Protocol) (port : Nat) :
    Except IoErrorKind (Port × Inner) :=
  let pr := if port == 0 then inner.nextPort Protocol.udp else (port, inner)
  let key : Port := ⟨protocol, pr.1⟩
  if containsKey pr.2.ports key then .error .addrInUse
  else .ok (key, pr.2)

/-- `check_address`: only loopback or unspecified IPs are accepted. -/
def check_address (addr : SocketAddr) : Except IoErrorKind Unit :=
  if addr.ip.is_loopback then .ok ()
  else if addr.ip.is_unspecified then .ok ()
  else .error .addrNotAvailable

/-- `VirtualHost::tcp_bind`: check the address, take a port
(`get_port(Tcp, addr.port())`), store the listener's send half in the
registry with an empty queue, return the listener (identified by its key). -/
def tcp_bind (inner : Inner) (addr : SocketAddr) :
    Except IoErrorKind (Port × Inner) :=
  match check_address addr with
  | .error e => .error e
  | .ok _ =>
    match inner.get_port Protocol.tcp addr.port with
    | .error e => .error e
    | .ok (key, inner) =>
      .ok (key, { inner with ports := insertKey inner.ports key (Value.tcpListener []) })

/-- Dropping the returned listener: the source defines no `Drop`
implementation for `Pipe`, so dropping only disconnects the channel; the
registry entry under the listener's key is untouched. -/
def TcpListener.drop_listener (inner : Inner) : Inner := inner

/-- `VirtualHost::udp_bind`: like `tcp_bind` with `Protocol::Udp` and a UDP
endpoint value. -/
def udp_bind (inner : Inner) (addr : SocketAddr) :
    Except IoErrorKind (Port × Inner) :=
  match check_address addr with
  | .error e => .error e
  | .ok _ =>
    match inner.get_port Protocol.udp addr.port with
    | .error e => .error e
    | .ok (key, inner) =>
      .ok (key, { inner with ports := insertKey inner.ports key (Value.udpSocket []) })

/-- Push an accepted stream endpoint onto a listener value's queue
(`sender.send(other)` on the stored listener send half). -/
def pushPending (other : TcpData) : Value → Value
  | Value.tcpListener q => Value.tcpListener (q ++ [other])
  | v => v

/-- `VirtualHost::tcp_connect`: check the address, allocate an ephemeral
TCP port with `get_port(Tcp, 0)`, look up the target key; if it holds a
listener, build the stream pair with mirrored addresses, queue the swapped
end on the listener and return the caller's end. -/
def tcp_connect (inner : Inner) (addr : SocketAddr) :
    Except IoErrorKind (TcpData × Inner) :=
  match check_address addr with
  | .error e => .error e
  | .ok _ =>
    match inner.get_port Protocol.tcp 0 with
    | .error e => .error e
    | .ok (key, inner) =>
      -- `target_key = Port(Tcp, addr.port())`; `tcp_socket` is the caller's
      -- end `⟨[], key, target_key⟩`; `other` is `tcp_socket` after
      -- `TcpData::swap`, queued on the listener.
      match lookupKey inner.ports ⟨Protocol.tcp, addr.port⟩ with
      | some (Value.tcpListener _) =>
        .ok (⟨[], key, ⟨Protocol.tcp, addr.port⟩⟩,
          { inner with
            ports := (updateKey inner.ports ⟨Protocol.tcp, addr.port⟩
              (pushPending (TcpData.swap ⟨[], key, ⟨Protocol.tcp, addr.port⟩⟩))) })
      | some _ => .error .connectionRefused
      | none => .error .connectionRefused

/-- `TcpStream::peer_addr` (always `Ok`). -/
def TcpStream.peer_addr (d : TcpData) : SocketAddr := d.peer_addr.toSocketAddr

/-- `TcpStream::local_addr` (always `Ok`). -/
def TcpStream.local_addr (d : TcpData) : SocketAddr := d.local_addr.toSocketAddr

/-- `TcpListener::accept`: pop the next queued stream, return it with its
peer address.  `none` models the suspension when the queue is empty and the
registry's send half is still alive. -/
def accept (inner : Inner) (k : Port) :
    Option ((TcpData × SocketAddr) × Inner) :=
  match lookupKey inner.ports k with
  | some (Value.tcpListener (t :: rest)) =>
    some ((t, t.peer_addr.toSocketAddr),
      { inner with ports := updateKey inner.ports k (fun _ => Value.tcpListener rest) })
  | _ => none

/-! ## Shutdown (virtual_host.rs, `TcpStream::shutdown`) -/

/-- `std::net::Shutdown` -/
inductive ShutdownDir where
  | read
  | write
  | both
deriving DecidableEq, Repr

/-- Result of a call that may panic. -/
inductive TaskResult (α : Type) where
  | panicked
  | ok (val : α)
deriving DecidableEq, Repr

/-- `TcpStream::shutdown(how)`: the source body is `todo!()`, which panics
unconditionally for every direction. -/
def TcpStream.shutdown (_d : TcpData) (_how : ShutdownDir) : TaskResult Unit :=
  .panicked

/-! ## UDP recv_from (virtual_host.rs, `UdpSocket::recv_from`) -/

/-- Outcome of one `recv_from` poll on the socket's receive queue. -/
inductive UdpRecvResult where
  | pending
  | panicked
  | err (e : IoErrorKind)
  | ok (n : Nat) (written : List Nat) (addr : SocketAddr)
deriving DecidableEq, Repr

/-- `UdpSocket::recv_from` on a socket whose receive channel holds `queue`
(oldest first) and whose peer send half is dropped iff `closed`.  The source
computes `to_copy = buf.len().min(dat.len())` but then runs
`buf.clone_from_slice(&dat[0..to_copy])`, which panics unless
`buf.len() == to_copy`, i.e. unless `bufLen ≤ dat.length`.  On success the
whole buffer is filled from the datagram and `(to_copy, addr)` returned. -/
def UdpSocket.recv_from (queue : List (List Nat × SocketAddr)) (closed : Bool)
    (bufLen : Nat) : UdpRecvResult × List (List Nat × SocketAddr) :=
  match queue with
  | [] => if closed then (.err .brokenPipe, []) else (.pending, [])
  | (dat, addr) :: rest =>
    let to_copy := min bufLen dat.length
    if bufLen = to_copy then (.ok to_copy (dat.take to_copy) addr, rest)
    else (.panicked, rest)

/-! ## TCP stream pipe read/write path (virtual_host.rs) -/

/-- One direction of a stream pipe: the unbounded channel from the writer's
send half to the reader's receive half.  `queue` holds the chunks in flight
(oldest first); `closed` is set once the writer has closed its half. -/
structure ChannelState where
  queue : List (List Nat)
  closed : Bool
deriving DecidableEq, Repr

/-- `AsyncWrite::poll_write`: `sender.start_send(Vec::from(buf))` then
`Ok(buf.len())`.  On a closed channel `start_send` fails and `map_err`
yields `BrokenPipe`. -/
def TcpStream.poll_write (ch : ChannelState) (buf : List Nat) :
    Except IoErrorKind Nat × ChannelState :=
  if ch.closed then (.error .brokenPipe, ch)
  else (.ok buf.length, { ch with queue := ch.queue ++ [buf] })

/-- `AsyncWrite::poll_close`: close the send half. -/
def TcpStream.poll_close (ch : ChannelState) : ChannelState :=
  { ch with closed := true }

/-- Perform a sequence of `poll_write` calls. -/
def TcpStream.write_all (ch : ChannelState) (bufs : List (List Nat)) :
    ChannelState :=
  bufs.foldl (fun c b => (TcpStream.poll_write c b).2) ch

/-- The reader's view of a stream: the carry buffer `TcpData.buf` plus the
receive half of the channel. -/
structure TcpReadState where
  buf : List Nat
  rx : ChannelState
deriving DecidableEq, Repr

/-- Result of one `poll_read`: `Pending`, or `Ok(n)` with the bytes written
into the caller's buffer (`n = bytes.length`; `Ok []` is a 0-byte return,
i.e. EOF when the caller's buffer is nonempty). -/
inductive ReadPoll where
  | pending
  | ok (bytes : List Nat)
deriving DecidableEq, Repr

/-- `AsyncRead::poll_read` with a caller buffer of length `n`.

If the carry buffer is nonempty the source copies from
`self.data.buf.as_slices().0`, a nonempty prefix of the deque whose length
is an internal detail of `VecDeque`; the oracle `sliceHint`, clamped into
`[1, buf.length]`, stands for that length, and theorems quantify over it.
Otherwise the next chunk is awaited: `None` (writer closed, queue drained)
returns `Ok(0)`; `Some(data)` copies `min(data.len, n)` bytes and carries
the remainder. -/
def TcpStream.poll_read (s : TcpReadState) (sliceHint n : Nat) :
    ReadPoll × TcpReadState :=
  match s.buf with
  | [] =>
    match s.rx.queue with
    | [] => if s.rx.closed then (.ok [], s) else (.pending, s)
    | data :: rest =>
      let to_copy := min data.length n
      (.ok (data.take to_copy), ⟨data.drop to_copy, ⟨rest, s.rx.closed⟩⟩)
  | _ :: _ =>
    let first_len := min (max sliceHint 1) s.buf.length
    let to_copy := min first_len n
    (.ok (s.buf.take to_copy), ⟨s.buf.drop to_copy, s.rx⟩)

/-- The bytes a poll result delivered (`Pending` delivers none). -/
def ReadPoll.bytes : ReadPoll → List Nat
  | .pending => []
  | .ok bs => bs

/-- Run a schedule of reads; each entry is `(sliceHint, buffer length)`.
Returns the chunks delivered, in order, with the final state. -/
def TcpStream.drainReads (s : TcpReadState) :
    List (Nat × Nat) → List (List Nat) × TcpReadState
  | [] => ([], s)
  | r :: rest =>
    let p := TcpStream.poll_read s r.1 r.2
    let q := TcpStream.drainReads p.2 rest
    (p.1.bytes :: q.1, q.2)

/-- Bytes still undelivered to the reader: carry buffer plus in-flight
chunks. -/
def pendingBytes (s : TcpReadState) : List Nat :=
  s.buf ++ s.rx.queue.flatten

/-- Termination measure for reading: pending bytes plus pending chunks. -/
def readMeasure (s : TcpReadState) : Nat :=
  s.buf.length + s.rx.queue.flatten.length + s.rx.queue.length

/-! ## Remote tunnel server accept map (src/remote/src/server.rs) -/

/-- `struct Map(Arc<(DashMap<u64, TcpStream>, AtomicU64)>)`.  Streams are
opaque tokens (`Nat`); the counter is the `AtomicU64`. -/
structure Map where
  entries : List (Nat × Nat)
  counter : Nat
deriving DecidableEq, Repr

/-- `Map::new()` -/
def Map.new : Map := ⟨[], 0⟩

/-- `Map::insert`: `id = counter.fetch_add(10)` (wrapping `u64` add
returning the old value), then `DashMap::insert(id, tcp)` (replacing any
entry under `id`). -/
def Map.insert (m : Map) (tcp : Nat) : Nat × Map :=
  let id := m.counter
  (id, ⟨(id, tcp) :: m.entries.filter (fun e => !(e.1 == id)),
        (m.counter + 10) % 2 ^ 64⟩)

/-- `Map::get`: `DashMap::remove(&id)`, returning the removed stream. -/
def Map.get (m : Map) (id : Nat) : Option Nat × Map :=
  match m.entries.find? (fun e => e.1 == id) with
  | some e => (some e.2, ⟨m.entries.filter (fun x => !(x.1 == id)), m.counter⟩)
  | none => (none, m)

/-- The `TcpAccept { id }` arm of `process_channel`:
`map.get(id).ok_or(Error::Other("ID is not found"))`, the attached stream
on success. -/
def process_channel_tcp_accept (m : Map) (id : Nat) :
    Except String (Nat × Map) :=
  match m.get id with
  | (some tcp, m') => .ok (tcp, m')
  | (none, _) => .error "ID is not found"

/-! ## Controller event drainer (src/src/controller.rs, `process`) -/

/-- The drainer's inner loop after `rx.recv()` yielded `first` while
`queued` events were already waiting:
`while let Some(Some(e)) = rx.recv().now_or_never() { events.push(e) }`.
Events are opaque tokens. -/
def drain_queue (events : List Nat) : List Nat → List Nat
  | [] => events
  | e :: rest => drain_queue (events ++ [e]) rest

/-- One published batch: `BatchEvent::with_capacity(16)` (a capacity hint
only), push `first`, then drain every immediately available event. -/
def process_batch (first : Nat) (queued : List Nat) : List Nat :=
  drain_queue [first] queued

/-! ## Forward server UDP channel (src/rd-std/src/builtin/forward.rs) -/

/-- `struct ListenUdpChannel { udp, client: Option<SocketAddr>, cfg }`;
only the `client` field and the configured target matter for routing. -/
structure ListenUdpChannel where
  client : Option SocketAddr
  target : SocketAddr
deriving DecidableEq, Repr

/-- `Stream::poll_next`: an inbound datagram `(bytes, addr)` from the bound
socket records `client = Some(addr)` and is yielded retagged with
`cfg.target`. -/
def ListenUdpChannel.poll_next (ch : ListenUdpChannel)
    (item : List Nat × SocketAddr) :
    ListenUdpChannel × (List Nat × SocketAddr) :=
  ({ ch with client := some item.2 }, (item.1, ch.target))

/-- `Sink::start_send((bytes, _))`: the address tag is discarded; if a
client has been seen the datagram is sent to it, otherwise `Ok(())` with no
send at all.  The result is the datagram actually handed to the bound
socket, if any. -/
def ListenUdpChannel.start_send (ch : ListenUdpChannel)
    (item : List Nat × SocketAddr) : Option (List Nat × SocketAddr) :=
  match ch.client with
  | some client => some (item.1, client)
  | none => none

/-- Feed a sequence of inbound datagrams through `poll_next`. -/
def ListenUdpChannel.feed_inbound (ch : ListenUdpChannel)
    (items : List (List Nat × SocketAddr)) : ListenUdpChannel :=
  items.foldl (fun c i => (c.poll_next i).1) ch

/-! ## Theorems -/

/-- Claim C2: the claim says a TCP ephemeral allocation consults only TCP
entries.  The code passes `Protocol::Udp` to `next_port` unconditionally.
First conjunct: with only `Port(Tcp, 1)` occupied and `next_port = 1`, a TCP
port-0 bind fails `addr-in-use` (the UDP scan finds port 1 "free", then the
TCP key collides), where the claim requires allocating port 2.  Second
conjunct: with only `Port(Udp, 1)` occupied, a TCP allocation skips the free
TCP port 1 and returns 2. -/
theorem get_port_uses_udp_table :
    Inner.get_port ⟨[(⟨Protocol.tcp, 1⟩, Value.tcpListener [])], 1⟩
        Protocol.tcp 0 = .error .addrInUse ∧
    Inner.get_port ⟨[(⟨Protocol.udp, 1⟩, Value.udpSocket [])], 1⟩
        Protocol.tcp 0
      = .ok (⟨Protocol.tcp, 2⟩, ⟨[(⟨Protocol.udp, 1⟩, Value.udpSocket [])], 2⟩) := by
  constructor <;> rfl

/-- Claim C3: binding `127.0.0.1:5`, dropping the listener (the source has
no `Drop` impl for `Pipe`, so the registry keeps the key) and rebinding the
same address fails `addr-in-use`, where the claim requires success. -/
theorem rebind_after_drop_fails :
    tcp_bind Inner.new ⟨localhost, 5⟩
      = .ok (⟨Protocol.tcp, 5⟩, ⟨[(⟨Protocol.tcp, 5⟩, Value.tcpListener [])], 1⟩) ∧
    tcp_bind
        (TcpListener.drop_listener ⟨[(⟨Protocol.tcp, 5⟩, Value.tcpListener [])], 1⟩)
        ⟨localhost, 5⟩
      = .error .addrInUse := by
  constructor <;> rfl

/-- Claim C4: `recv_from` with a 2-byte buffer and a queued 1-byte datagram
panics (`clone_from_slice` length mismatch), where the claim requires a
successful 1-byte read.  The second conjunct shows the only non-panicking
case, `buf.len() ≤ datagram.len()`, which fills the whole buffer. -/
theorem recv_from_panics_on_large_buf :
    UdpSocket.recv_from [([7], ⟨localhost, 9⟩)] false 2 = (.panicked, []) ∧
    UdpSocket.recv_from [([1, 2, 3], ⟨localhost, 9⟩)] false 2
      = (.ok 2 [1, 2] ⟨localhost, 9⟩, []) := by
  constructor <;> rfl

/-- Claim C5: `TcpStream::shutdown` is `todo!()` and panics for every
direction, where the claim requires it to succeed and close the sender
half. -/
theorem shutdown_panics :
    TcpStream.shutdown ⟨[], ⟨Protocol.tcp, 1⟩, ⟨Protocol.tcp, 2⟩⟩
        ShutdownDir.read = .panicked ∧
    TcpStream.shutdown ⟨[], ⟨Protocol.tcp, 1⟩, ⟨Protocol.tcp, 2⟩⟩
        ShutdownDir.write = .panicked ∧
    TcpStream.shutdown ⟨[], ⟨Protocol.tcp, 1⟩, ⟨Protocol.tcp, 2⟩⟩
        ShutdownDir.both = .panicked := by
  exact ⟨rfl, rfl, rfl⟩

/-- Claim C6, counterexample: connecting to `0.0.0.0:80` (accepted, since
unspecified IPs pass `check_address`) succeeds, but the returned stream's
`peer_addr` is `127.0.0.1:80`, not the connect address. -/
theorem tcp_connect_peer_addr_ne_target :
    (tcp_connect ⟨[(⟨Protocol.tcp, 80⟩, Value.tcpListener [])], 1⟩
        ⟨⟨0, 0, 0, 0⟩, 80⟩).map (fun p => TcpStream.peer_addr p.1)
      = .ok ⟨localhost, 80⟩ ∧
    (⟨localhost, 80⟩ : SocketAddr) ≠ ⟨⟨0, 0, 0, 0⟩, 80⟩ := by
  exact ⟨rfl, by decide⟩

/-- Claim C8, counterexample: with 16 further events queued when the
drainer wakes, the published batch holds 17 events, violating the claimed
16-event bound. -/
theorem process_batch_exceeds_16 :
    (process_batch 0 (List.replicate 16 0)).length = 17 ∧
    ¬(process_batch 0 (List.replicate 16 0)).length ≤ 16 := by
  exact ⟨rfl, by decide⟩

/-- The drain loop appends the whole queue to the accumulated batch. -/
theorem drain_queue_eq (queued events : List Nat) :
    drain_queue events queued = events ++ queued := by
  induction queued generalizing events with
  | nil => simp [drain_queue]
  | cons e rest ih => simp [drain_queue, ih]

/-- Claim C8 amended: a batch contains the waking event followed by every
event queued at that moment, in order — at least one event, with no upper
bound (16 is only the vector's initial capacity). -/
theorem process_batch_all_queued (first : Nat) (queued : List Nat) :
    process_batch first queued = first :: queued ∧
    1 ≤ (process_batch first queued).length := by
  have h : process_batch first queued = first :: queued := by
    simp [process_batch, drain_queue_eq]
  exact ⟨h, by simp [h]⟩

/-- Claim C9, counterexample: a reply fed to the sink before any inbound
datagram is silently discarded (`start_send` sends nothing yet reports
success), and after a second client appears, a reply tagged with the first
client's address is sent to the second client instead. -/
theorem start_send_drops_and_misdirects :
    ListenUdpChannel.start_send ⟨none, ⟨localhost, 4321⟩⟩
        ([9], ⟨⟨10, 0, 0, 1⟩, 1000⟩) = none ∧
    ListenUdpChannel.start_send
        (ListenUdpChannel.feed_inbound ⟨none, ⟨localhost, 4321⟩⟩
          [([1], ⟨⟨10, 0, 0, 1⟩, 1000⟩), ([2], ⟨⟨10, 0, 0, 2⟩, 2000⟩)])
        ([9], ⟨⟨10, 0, 0, 1⟩, 1000⟩)
      = some ([9], ⟨⟨10, 0, 0, 2⟩, 2000⟩) ∧
    (⟨⟨10, 0, 0, 2⟩, 2000⟩ : SocketAddr) ≠ ⟨⟨10, 0, 0, 1⟩, 1000⟩ := by
  exact ⟨rfl, rfl, by decide⟩

/-- After feeding inbound datagrams, the recorded client is the source of
the last one (or the prior value when none were fed); the target is
untouched. -/
theorem feed_inbound_client (items : List (List Nat × SocketAddr))
    (ch : ListenUdpChannel) :
    (ListenUdpChannel.feed_inbound ch items).client
        = (match items.getLast? with
           | some l => some l.2
           | none => ch.client) ∧
    (ListenUdpChannel.feed_inbound ch items).target = ch.target := by
  induction items generalizing ch with
  | nil => simp [ListenUdpChannel.feed_inbound]
  | cons i rest ih =>
    have h := ih ({ ch with client := some i.2 })
    cases rest with
    | nil =>
      simp only [ListenUdpChannel.feed_inbound, ListenUdpChannel.poll_next] at h ⊢
      simp only [List.getLast?_singleton] at h ⊢
      exact h
    | cons j rest2 =>
      simpa [ListenUdpChannel.feed_inbound, ListenUdpChannel.poll_next] using h

/-- Claim C9 amended: a reply handed to the sink is sent to the source
address of the most recently seen inbound datagram, ignoring the address the
reply is tagged with; when no inbound datagram has been seen, the reply is
silently discarded while `start_send` reports success. -/
theorem start_send_goes_to_last_client (t : SocketAddr)
    (items : List (List Nat × SocketAddr)) (reply : List Nat × SocketAddr) :
    ListenUdpChannel.start_send
        (ListenUdpChannel.feed_inbound ⟨none, t⟩ items) reply
      = items.getLast?.map (fun last => (reply.1, last.2)) := by
  have h := (feed_inbound_client items ⟨none, t⟩).1
  cases hl : items.getLast? with
  | none => simp [ListenUdpChannel.start_send, hl] at h ⊢; simp [h]
  | some l => simp [ListenUdpChannel.start_send, hl] at h ⊢; simp [h]

/-- Removing a key from an association list makes lookups of that key
fail. -/
theorem find?_filter_ne_self (l : List (Nat × Nat)) (j : Nat) :
    (l.filter (fun x => !(x.1 == j))).find? (fun e => e.1 == j) = none := by
  rw [List.find?_eq_none]
  intro x hx
  have hmem := List.of_mem_filter hx
  simpa using hmem

/-- `TcpAccept` when the id is present: the stream is returned and the
entry removed. -/
theorem process_accept_found (m : Map) (id v : Nat)
    (h : m.entries.find? (fun e => e.1 == id) = some (id, v)) :
    process_channel_tcp_accept m id
      = .ok (v, ⟨m.entries.filter (fun x => !(x.1 == id)), m.counter⟩) := by
  simp [process_channel_tcp_accept, Map.get, h]

/-- `TcpAccept` when the id is absent: `other("ID is not found")`. -/
theorem process_accept_missing (m : Map) (id : Nat)
    (h : m.entries.find? (fun e => e.1 == id) = none) :
    process_channel_tcp_accept m id = .error "ID is not found" := by
  simp [process_channel_tcp_accept, Map.get, h]

/-- Claim C7: ids vended by the remote server's map are monotonic with step
10; the first `TcpAccept` on a vended id removes the stream and succeeds;
a second attempt on the same id, and any id absent from the map, fails
`other("ID is not found")`.  The hypothesis keeps the `u64` counter from
wrapping. -/
theorem remote_accept_id_single_use (m : Map) (s t : Nat)
    (hw : m.counter + 20 ≤ 2 ^ 64) :
    (m.insert s).1 = m.counter ∧
    ((m.insert s).2.insert t).1 = (m.insert s).1 + 10 ∧
    (∃ m3, process_channel_tcp_accept ((m.insert s).2.insert t).2 (m.insert s).1
          = .ok (s, m3) ∧
        process_channel_tcp_accept m3 (m.insert s).1
          = .error "ID is not found") ∧
    (∀ (m' : Map) (j : Nat), m'.entries.find? (fun e => e.1 == j) = none →
        process_channel_tcp_accept m' j = .error "ID is not found") := by
  have h2 : (2 : Nat) ^ 64 = 18446744073709551616 := by norm_num
  have hlt : m.counter + 10 < 2 ^ 64 := by rw [h2] at hw ⊢; omega
  have hmod : (m.counter + 10) % 2 ^ 64 = m.counter + 10 :=
    Nat.mod_eq_of_lt hlt
  have hne : ((m.counter + 10 == m.counter) : Bool) = false := by
    simp
  have hne' : ((m.counter == m.counter + 10) : Bool) = false := by
    simp
  have hself : ((m.counter == m.counter) : Bool) = true := by simp
  have hents : (((m.insert s).2.insert t).2).entries
      = (m.counter + 10, t) :: (m.counter, s) ::
        (m.entries.filter (fun e => !(e.1 == m.counter))).filter
          (fun e => !(e.1 == m.counter + 10)) := by
    simp only [Map.insert, hmod, List.filter_cons, hne', Bool.not_false,
      if_true]
  have hfind2 : (((m.insert s).2.insert t).2).entries.find?
      (fun e => e.1 == m.counter) = some (m.counter, s) := by
    rw [hents]
    simp only [List.find?, hne, hself]
  refine ⟨rfl, ?_, ?_, ?_⟩
  · simp only [Map.insert, hmod]
  · refine ⟨⟨(((m.insert s).2.insert t).2).entries.filter
        (fun x => !(x.1 == m.counter)), (((m.insert s).2.insert t).2).counter⟩,
      process_accept_found _ _ _ hfind2, ?_⟩
    exact process_accept_missing _ _
      (find?_filter_ne_self (((m.insert s).2.insert t).2).entries m.counter)
  · intro m' j hfind
    exact process_accept_missing m' j hfind

/-- Witness for C7 at the fresh map of `RemoteServer::start`: two inserts
from `Map::new` vend ids 0 and 10, the first accept of id 0 succeeds, the
second fails. -/
theorem remote_accept_id_single_use_witness :
    Map.new.counter + 20 ≤ 2 ^ 64 ∧
    ((Map.new.insert 7).1 = Map.new.counter ∧
      ((Map.new.insert 7).2.insert 8).1 = (Map.new.insert 7).1 + 10 ∧
      (∃ m3,
          process_channel_tcp_accept ((Map.new.insert 7).2.insert 8).2
              (Map.new.insert 7).1 = .ok (7, m3) ∧
          process_channel_tcp_accept m3 (Map.new.insert 7).1
            = .error "ID is not found") ∧
      (∀ (m' : Map) (j : Nat),
          m'.entries.find? (fun e => e.1 == j) = none →
          process_channel_tcp_accept m' j = .error "ID is not found")) :=
  ⟨by decide, remote_accept_id_single_use Map.new 7 8 (by decide)⟩

/-! ### Registry lemmas -/

/-- A key occurs in the registry iff it occurs among the keys. -/
theorem containsKey_iff (ports : List (Port × Value)) (k : Port) :
    containsKey ports k = true ↔ k ∈ ports.map Prod.fst := by
  constructor
  · intro hb
    rcases List.any_eq_true.mp hb with ⟨kv, hkv, hkveq⟩
    have hfst : kv.1 = k := by simpa using hkveq
    rw [← hfst]
    exact List.mem_map_of_mem Prod.fst hkv
  · intro hm
    rcases List.mem_map.mp hm with ⟨kv, hkv, hfst⟩
    exact List.any_eq_true.mpr ⟨kv, hkv, by simp [hfst]⟩

/-- `containsKey` only depends on the key list. -/
theorem containsKey_congr (ports1 ports2 : List (Port × Value)) (k : Port)
    (h : ports1.map Prod.fst = ports2.map Prod.fst) :
    containsKey ports1 k = containsKey ports2 k := by
  rw [Bool.eq_iff_iff, containsKey_iff, containsKey_iff, h]

/-- `updateKey` keeps the key list. -/
theorem updateKey_keys (ports : List (Port × Value)) (k : Port)
    (f : Value → Value) :
    (updateKey ports k f).map Prod.fst = ports.map Prod.fst := by
  rw [updateKey, List.map_map]
  apply List.map_congr_left
  intro kv _
  by_cases h : kv.1 = k <;> simp [h]

/-- `updateKey` keeps the length. -/
theorem updateKey_length (ports : List (Port × Value)) (k : Port)
    (f : Value → Value) :
    (updateKey ports k f).length = ports.length := by
  simp [updateKey]

/-- One step of `lookupKey`. -/
theorem lookupKey_cons (kv : Port × Value) (rest : List (Port × Value))
    (k : Port) :
    lookupKey (kv :: rest) k
      = if kv.1 = k then some kv.2 else lookupKey rest k := by
  by_cases h : kv.1 = k
  · simp [lookupKey, List.find?_cons, h]
  · simp [lookupKey, List.find?_cons, h]

/-- One step of `updateKey`. -/
theorem updateKey_cons (kv : Port × Value) (rest : List (Port × Value))
    (k : Port) (f : Value → Value) :
    updateKey (kv :: rest) k f
      = (if kv.1 = k then (kv.1, f kv.2) else kv) :: updateKey rest k f := by
  by_cases h : kv.1 = k <;> simp [updateKey, h]

/-- Looking up the updated key applies the update to the stored value. -/
theorem lookupKey_updateKey_self (ports : List (Port × Value)) (k : Port)
    (f : Value → Value) :
    lookupKey (updateKey ports k f) k = (lookupKey ports k).map f := by
  induction ports with
  | nil => rfl
  | cons kv rest ih =>
    rw [updateKey_cons, lookupKey_cons, lookupKey_cons]
    by_cases h : kv.1 = k
    · rw [if_pos h, if_pos h]
      have : ((kv.1, f kv.2) : Port × Value).1 = k := h
      rw [if_pos this]
      rfl
    · rw [if_neg h, if_neg h, if_neg h]
      exact ih

/-- Looking up any other key is unaffected by the update. -/
theorem lookupKey_updateKey_ne (ports : List (Port × Value)) (k k' : Port)
    (f : Value → Value) (h : k' ≠ k) :
    lookupKey (updateKey ports k f) k' = lookupKey ports k' := by
  induction ports with
  | nil => rfl
  | cons kv rest ih =>
    rw [updateKey_cons, lookupKey_cons, lookupKey_cons]
    by_cases hk : kv.1 = k
    · rw [if_pos hk]
      have hne1 : ¬((kv.1, f kv.2) : Port × Value).1 = k' := by
        intro he
        exact h (by rw [← he, hk])
      have hne2 : ¬kv.1 = k' := by
        intro he
        exact h (by rw [← he, hk])
      rw [if_neg hne1, if_neg hne2]
      exact ih
    · rw [if_neg hk]
      by_cases hk2 : kv.1 = k'
      · rw [if_pos hk2, if_pos hk2]
      · rw [if_neg hk2, if_neg hk2]
        exact ih

/-! ### Port allocation lemmas -/

/-- Pigeonhole: among any `ports.length + 1` consecutive ports there is one
absent from the registry. -/
theorem exists_free_port (ports : List (Port × Value)) (proto : Protocol)
    (start : Nat) :
    ∃ m, m < ports.length + 1 ∧
      containsKey ports ⟨proto, start + m⟩ = false := by
  by_contra hcon
  push_neg at hcon
  have hall : ∀ m, m < ports.length + 1 →
      (⟨proto, start + m⟩ : Port) ∈ ports.map Prod.fst := by
    intro m hm
    have hb : containsKey ports ⟨proto, start + m⟩ = true :=
      Bool.ne_false_iff.mp (hcon m hm)
    rcases List.any_eq_true.mp hb with ⟨kv, hkv, hkveq⟩
    have hfst : kv.1 = ⟨proto, start + m⟩ := by simpa using hkveq
    rw [← hfst]
    exact List.mem_map_of_mem Prod.fst hkv
  have hinj : Function.Injective (fun m : Nat => (⟨proto, start + m⟩ : Port)) := by
    intro x y hxy
    simp only [Port.mk.injEq, true_and] at hxy
    omega
  have hsub : (Finset.range (ports.length + 1)).image
      (fun m => (⟨proto, start + m⟩ : Port)) ⊆ (ports.map Prod.fst).toFinset := by
    intro p hp
    rcases Finset.mem_image.mp hp with ⟨m, hm, rfl⟩
    exact List.mem_toFinset.mpr (hall m (Finset.mem_range.mp hm))
  have hcard := Finset.card_le_card hsub
  rw [Finset.card_image_of_injective _ hinj, Finset.card_range] at hcard
  have hfin := List.toFinset_card_le (ports.map Prod.fst)
  rw [List.length_map] at hfin
  omega

/-- If some port within `fuel` steps of `start` is free, the allocation loop
returns a free port at or above `start`. -/
theorem nextPortLoop_free (ports : List (Port × Value)) (proto : Protocol) :
    ∀ (fuel start : Nat),
      (∃ m, m < fuel ∧ containsKey ports ⟨proto, start + m⟩ = false) →
      containsKey ports ⟨proto, nextPortLoop ports proto fuel start⟩ = false ∧
      start ≤ nextPortLoop ports proto fuel start := by
  intro fuel
  induction fuel with
  | zero =>
    intro start h
    rcases h with ⟨m, hm, _⟩
    omega
  | succ fuel ih =>
    intro start h
    by_cases hc : containsKey ports ⟨proto, start⟩ = true
    · rcases h with ⟨m, hm, hfree⟩
      have hm0 : m ≠ 0 := by
        rintro rfl
        rw [Nat.add_zero] at hfree
        rw [hc] at hfree
        cases hfree
      have hstep := ih (start + 1)
        ⟨m - 1, by omega, by
          have harith : start + 1 + (m - 1) = start + m := by omega
          rw [harith]
          exact hfree⟩
      rw [nextPortLoop, if_pos hc]
      exact ⟨hstep.1, by omega⟩
    · have hcf : containsKey ports ⟨proto, start⟩ = false :=
        Bool.not_eq_true _ ▸ Bool.eq_false_iff.mpr (fun he => hc he)
      rw [nextPortLoop, if_neg hc]
      exact ⟨hcf, Nat.le_refl _⟩

/-- The loop returns its start immediately when the start port is free. -/
theorem nextPortLoop_start_free (ports : List (Port × Value))
    (proto : Protocol) (fuel start : Nat)
    (h : containsKey ports ⟨proto, start⟩ = false) :
    nextPortLoop ports proto (fuel + 1) start = start := by
  rw [nextPortLoop, h]
  simp

/-- `Inner::next_port` returns a free port of the scanned protocol at or
above the stored hint. -/
theorem nextPort_free (inner : Inner) (proto : Protocol) :
    containsKey inner.ports ⟨proto, (inner.nextPort proto).1⟩ = false ∧
    inner.next_port ≤ (inner.nextPort proto).1 :=
  nextPortLoop_free inner.ports proto (inner.ports.length + 1) inner.next_port
    (exists_free_port inner.ports proto inner.next_port)

/-- `get_port` with port 0, written as the allocation it performs. -/
theorem get_port_zero_eq (inner : Inner) (proto : Protocol) :
    inner.get_port proto 0
      = (if containsKey inner.ports ⟨proto, (inner.nextPort Protocol.udp).1⟩
         then .error .addrInUse
         else .ok (⟨proto, (inner.nextPort Protocol.udp).1⟩,
             (inner.nextPort Protocol.udp).2)) := rfl

/-- `get_port` with an explicit free port hands the key back unchanged. -/
theorem get_port_pos_free (inner : Inner) (proto : Protocol) (port : Nat)
    (hp : (port == 0) = false)
    (hfree : containsKey inner.ports ⟨proto, port⟩ = false) :
    inner.get_port proto port = .ok (⟨proto, port⟩, inner) := by
  rw [Inner.get_port, hp]
  simp [hfree]

/-- Inversion of a successful ephemeral allocation. -/
theorem get_port_zero_ok (inner : Inner) (proto : Protocol) (key : Port)
    (inner1 : Inner) (h : inner.get_port proto 0 = .ok (key, inner1)) :
    key = ⟨proto, (inner.nextPort Protocol.udp).1⟩ ∧
    inner1 = (inner.nextPort Protocol.udp).2 ∧
    containsKey inner.ports key = false := by
  rw [get_port_zero_eq] at h
  by_cases hc : containsKey inner.ports
      ⟨proto, (inner.nextPort Protocol.udp).1⟩ = true
  · rw [if_pos hc] at h
    cases h
  · rw [if_neg hc] at h
    simp only [Except.ok.injEq, Prod.mk.injEq] at h
    obtain ⟨hk, hi⟩ := h
    refine ⟨hk.symm, hi.symm, ?_⟩
    rw [hk.symm]
    exact Bool.eq_false_iff.mpr (fun he => hc he)

/-- Inversion of a successful `tcp_connect`: the address check passed, the
target key held a listener, the caller's stream carries the fresh ephemeral
local key and the target peer key, the ephemeral key is not in the registry,
and the new state only pushes the swapped endpoint onto the listener while
recording the allocation hint. -/
theorem tcp_connect_ok_inv (inner : Inner) (a : SocketAddr) (strm : TcpData)
    (inner' : Inner) (hok : tcp_connect inner a = .ok (strm, inner')) :
    ∃ q, check_address a = .ok () ∧
      lookupKey inner.ports ⟨Protocol.tcp, a.port⟩
        = some (Value.tcpListener q) ∧
      strm = ⟨[], ⟨Protocol.tcp, (inner.nextPort Protocol.udp).1⟩,
        ⟨Protocol.tcp, a.port⟩⟩ ∧
      containsKey inner.ports
        ⟨Protocol.tcp, (inner.nextPort Protocol.udp).1⟩ = false ∧
      inner' = ⟨updateKey inner.ports ⟨Protocol.tcp, a.port⟩
          (pushPending strm.swap), (inner.nextPort Protocol.udp).1⟩ := by
  unfold tcp_connect at hok
  split at hok
  · cases hok
  · rename_i u heq
    cases u
    split at hok
    · cases hok
    · rename_i key inner1 heq2
      obtain ⟨hkey, hinner1, hfree⟩ :=
        get_port_zero_ok inner Protocol.tcp key inner1 heq2
      subst hkey
      subst hinner1
      split at hok
      · rename_i pending heq3
        simp only [Except.ok.injEq, Prod.mk.injEq] at hok
        obtain ⟨hstrm, hinner⟩ := hok
        refine ⟨pending, heq, ?_, hstrm.symm, hfree, ?_⟩
        · exact heq3
        · rw [← hinner, ← hstrm]
          rfl
      · cases hok
      · cases hok

/-- Forward construction of a successful `tcp_connect` from the branch
facts. -/
theorem tcp_connect_build (inner : Inner) (a : SocketAddr) (key : Port)
    (inner1 : Inner) (q : List TcpData)
    (hch : check_address a = .ok ())
    (hgp : inner.get_port Protocol.tcp 0 = .ok (key, inner1))
    (hlk : lookupKey inner1.ports ⟨Protocol.tcp, a.port⟩
      = some (Value.tcpListener q)) :
    tcp_connect inner a
      = .ok (⟨[], key, ⟨Protocol.tcp, a.port⟩⟩,
        { inner1 with
          ports := (updateKey inner1.ports ⟨Protocol.tcp, a.port⟩
            (pushPending (TcpData.swap ⟨[], key, ⟨Protocol.tcp, a.port⟩⟩))) }) := by
  unfold tcp_connect
  split
  · rename_i e heq
    rw [hch] at heq
    cases heq
  · split
    · rename_i e heq2
      rw [hgp] at heq2
      cases heq2
    · rename_i key' inner1' heq2
      rw [hgp] at heq2
      simp only [Except.ok.injEq, Prod.mk.injEq] at heq2
      obtain ⟨hk, hi⟩ := heq2
      subst hk
      subst hi
      split
      · rename_i pending heq3
        rfl
      · rename_i v heq3 hne
        rw [hlk] at hne
        simp only [Option.some.injEq] at hne
        exact (heq3 q hne.symm).elim
      · rename_i heq3
        rw [hlk] at heq3
        cases heq3

/-- Forward construction of a successful `tcp_bind`. -/
theorem tcp_bind_build (inner : Inner) (a : SocketAddr) (key : Port)
    (inner1 : Inner)
    (hch : check_address a = .ok ())
    (hgp : inner.get_port Protocol.tcp a.port = .ok (key, inner1)) :
    tcp_bind inner a
      = .ok (key, { inner1 with
          ports := insertKey inner1.ports key (Value.tcpListener []) }) := by
  unfold tcp_bind
  split
  · rename_i e heq
    rw [hch] at heq
    cases heq
  · split
    · rename_i e heq2
      rw [hgp] at heq2
      cases heq2
    · rename_i key' inner1' heq2
      rw [hgp] at heq2
      simp only [Except.ok.injEq, Prod.mk.injEq] at heq2
      obtain ⟨hk, hi⟩ := heq2
      subst hk
      subst hi
      rfl

/-- `accept` on a listener with a queued stream pops it and reports its
peer address. -/
theorem accept_cons (inner : Inner) (k : Port) (t : TcpData)
    (rest : List TcpData)
    (h : lookupKey inner.ports k = some (Value.tcpListener (t :: rest))) :
    accept inner k = some ((t, t.peer_addr.toSocketAddr),
      { inner with
        ports := (updateKey inner.ports k
          (fun _ => Value.tcpListener rest)) }) := by
  unfold accept
  rw [h]

/-- A `tcp_connect` on a state whose allocation hint is already a free port
(for both tables) reallocates exactly that port. -/
theorem tcp_connect_again (U : List (Port × Value)) (p : Nat)
    (a : SocketAddr) (q2 : List TcpData)
    (hch : check_address a = .ok ())
    (hfu : containsKey U ⟨Protocol.udp, p⟩ = false)
    (hft : containsKey U ⟨Protocol.tcp, p⟩ = false)
    (hlk : lookupKey U ⟨Protocol.tcp, a.port⟩ = some (Value.tcpListener q2)) :
    tcp_connect ⟨U, p⟩ a
      = .ok (⟨[], ⟨Protocol.tcp, p⟩, ⟨Protocol.tcp, a.port⟩⟩,
          ⟨updateKey U ⟨Protocol.tcp, a.port⟩
            (pushPending (TcpData.swap ⟨[], ⟨Protocol.tcp, p⟩,
              ⟨Protocol.tcp, a.port⟩⟩)), p⟩) := by
  have hone : ((⟨U, p⟩ : Inner).nextPort Protocol.udp).1 = p :=
    nextPortLoop_start_free U Protocol.udp U.length p hfu
  have htwo : ((⟨U, p⟩ : Inner).nextPort Protocol.udp).2 = (⟨U, p⟩ : Inner) := by
    show (⟨U, ((⟨U, p⟩ : Inner).nextPort Protocol.udp).1⟩ : Inner) = ⟨U, p⟩
    rw [hone]
  have hgp : (⟨U, p⟩ : Inner).get_port Protocol.tcp 0
      = .ok (⟨Protocol.tcp, p⟩, ⟨U, p⟩) := by
    rw [get_port_zero_eq, hone, htwo]
    simp only [hft]
    simp
  exact tcp_connect_build ⟨U, p⟩ a ⟨Protocol.tcp, p⟩ ⟨U, p⟩ q2 hch hgp hlk

/-- A `tcp_bind` of a free explicit port on the loopback address
succeeds. -/
theorem tcp_bind_after (U : List (Port × Value)) (p : Nat)
    (hp : (p == 0) = false)
    (hft : containsKey U ⟨Protocol.tcp, p⟩ = false) :
    tcp_bind ⟨U, p⟩ ⟨localhost, p⟩
      = .ok (⟨Protocol.tcp, p⟩,
          ⟨insertKey U ⟨Protocol.tcp, p⟩ (Value.tcpListener []), p⟩) := by
  have hch : check_address ⟨localhost, p⟩ = .ok () := rfl
  have hgp := get_port_pos_free (⟨U, p⟩ : Inner) Protocol.tcp p hp hft
  exact tcp_bind_build ⟨U, p⟩ ⟨localhost, p⟩ ⟨Protocol.tcp, p⟩ ⟨U, p⟩ hch hgp

/-- Claim C6 amended: for every successful `tcp_connect(a)`, the returned
stream's `peer_addr` is `127.0.0.1` with `a`'s port (so it equals `a`
exactly when `a`'s IP is `127.0.0.1`), its `local_addr` is `127.0.0.1` with
the ephemeral port assigned, and the endpoint queued on the listener — the
one `accept` returns together with the connector's ephemeral address —
carries the mirrored pair: local `Port(Tcp, a.port)`, peer the ephemeral
key. -/
theorem tcp_connect_addr_pairs (inner : Inner) (a : SocketAddr)
    (strm : TcpData) (inner' : Inner)
    (hok : tcp_connect inner a = .ok (strm, inner')) :
    TcpStream.peer_addr strm = ⟨localhost, a.port⟩ ∧
    TcpStream.local_addr strm = ⟨localhost, strm.local_addr.num⟩ ∧
    strm.local_addr.protocol = Protocol.tcp ∧
    strm.peer_addr = ⟨Protocol.tcp, a.port⟩ ∧
    strm.swap.local_addr = ⟨Protocol.tcp, a.port⟩ ∧
    strm.swap.peer_addr = strm.local_addr ∧
    (∀ q, lookupKey inner.ports ⟨Protocol.tcp, a.port⟩
        = some (Value.tcpListener q) →
      lookupKey inner'.ports ⟨Protocol.tcp, a.port⟩
        = some (Value.tcpListener (q ++ [strm.swap]))) ∧
    (lookupKey inner.ports ⟨Protocol.tcp, a.port⟩
        = some (Value.tcpListener []) →
      ∃ inner2, accept inner' ⟨Protocol.tcp, a.port⟩
        = some ((strm.swap, TcpStream.local_addr strm), inner2)) := by
  obtain ⟨q, hch, hlk, hstrm, hfree, hinner⟩ :=
    tcp_connect_ok_inv inner a strm inner' hok
  subst hstrm
  subst hinner
  have hupd : ∀ q', lookupKey inner.ports ⟨Protocol.tcp, a.port⟩
      = some (Value.tcpListener q') →
      lookupKey (updateKey inner.ports ⟨Protocol.tcp, a.port⟩
          (pushPending (TcpData.swap ⟨[], ⟨Protocol.tcp,
            (inner.nextPort Protocol.udp).1⟩, ⟨Protocol.tcp, a.port⟩⟩)))
        ⟨Protocol.tcp, a.port⟩
      = some (Value.tcpListener (q' ++ [TcpData.swap ⟨[], ⟨Protocol.tcp,
          (inner.nextPort Protocol.udp).1⟩, ⟨Protocol.tcp, a.port⟩⟩])) := by
    intro q' hq'
    rw [lookupKey_updateKey_self, hq']
    rfl
  refine ⟨rfl, rfl, rfl, rfl, rfl, rfl, hupd, ?_⟩
  intro hq0
  have h1 := hupd [] hq0
  rw [List.nil_append] at h1
  exact ⟨_, accept_cons _ _ _ _ h1⟩

/-- Witness for C6: connect to `127.0.0.1:80` on a host with a fresh
listener at port 80; the ephemeral port is 1 and all address pairs are as
stated. -/
theorem tcp_connect_addr_pairs_witness :
    tcp_connect ⟨[(⟨Protocol.tcp, 80⟩, Value.tcpListener [])], 1⟩
        ⟨localhost, 80⟩
      = .ok (⟨[], ⟨Protocol.tcp, 1⟩, ⟨Protocol.tcp, 80⟩⟩,
          ⟨[(⟨Protocol.tcp, 80⟩,
            Value.tcpListener [⟨[], ⟨Protocol.tcp, 80⟩, ⟨Protocol.tcp, 1⟩⟩])],
           1⟩) ∧
    (TcpStream.peer_addr ⟨[], ⟨Protocol.tcp, 1⟩, ⟨Protocol.tcp, 80⟩⟩
        = ⟨localhost, 80⟩ ∧
      TcpStream.local_addr ⟨[], ⟨Protocol.tcp, 1⟩, ⟨Protocol.tcp, 80⟩⟩
        = ⟨localhost, (⟨[], ⟨Protocol.tcp, 1⟩,
            (⟨Protocol.tcp, 80⟩ : Port)⟩ : TcpData).local_addr.num⟩ ∧
      (⟨[], ⟨Protocol.tcp, 1⟩,
        (⟨Protocol.tcp, 80⟩ : Port)⟩ : TcpData).local_addr.protocol
        = Protocol.tcp ∧
      (⟨[], ⟨Protocol.tcp, 1⟩,
        (⟨Protocol.tcp, 80⟩ : Port)⟩ : TcpData).peer_addr
        = ⟨Protocol.tcp, 80⟩ ∧
      (⟨[], ⟨Protocol.tcp, 1⟩,
        (⟨Protocol.tcp, 80⟩ : Port)⟩ : TcpData).swap.local_addr
        = ⟨Protocol.tcp, 80⟩ ∧
      (⟨[], ⟨Protocol.tcp, 1⟩,
        (⟨Protocol.tcp, 80⟩ : Port)⟩ : TcpData).swap.peer_addr
        = (⟨[], ⟨Protocol.tcp, 1⟩,
            (⟨Protocol.tcp, 80⟩ : Port)⟩ : TcpData).local_addr ∧
      (∀ q, lookupKey [(⟨Protocol.tcp, 80⟩, Value.tcpListener [])]
          ⟨Protocol.tcp, 80⟩ = some (Value.tcpListener q) →
        lookupKey [(⟨Protocol.tcp, 80⟩,
            Value.tcpListener [⟨[], ⟨Protocol.tcp, 80⟩, ⟨Protocol.tcp, 1⟩⟩])]
          ⟨Protocol.tcp, 80⟩
          = some (Value.tcpListener (q ++ [(⟨[], ⟨Protocol.tcp, 1⟩,
              (⟨Protocol.tcp, 80⟩ : Port)⟩ : TcpData).swap]))) ∧
      (lookupKey [(⟨Protocol.tcp, 80⟩, Value.tcpListener [])]
          ⟨Protocol.tcp, 80⟩ = some (Value.tcpListener []) →
        ∃ inner2, accept ⟨[(⟨Protocol.tcp, 80⟩,
            Value.tcpListener [⟨[], ⟨Protocol.tcp, 80⟩, ⟨Protocol.tcp, 1⟩⟩])],
            1⟩ ⟨Protocol.tcp, 80⟩
          = some (((⟨[], ⟨Protocol.tcp, 1⟩,
              (⟨Protocol.tcp, 80⟩ : Port)⟩ : TcpData).swap,
              TcpStream.local_addr ⟨[], ⟨Protocol.tcp, 1⟩,
                ⟨Protocol.tcp, 80⟩⟩), inner2))) :=
  ⟨rfl, tcp_connect_addr_pairs
    ⟨[(⟨Protocol.tcp, 80⟩, Value.tcpListener [])], 1⟩ ⟨localhost, 80⟩
    ⟨[], ⟨Protocol.tcp, 1⟩, ⟨Protocol.tcp, 80⟩⟩
    ⟨[(⟨Protocol.tcp, 80⟩,
      Value.tcpListener [⟨[], ⟨Protocol.tcp, 80⟩, ⟨Protocol.tcp, 1⟩⟩])], 1⟩
    rfl⟩

/-- Claim C10: a successful `tcp_connect` never reserves the ephemeral key:
the registry key list is unchanged, every non-target entry is untouched, the
ephemeral key stays absent, an immediately following `tcp_connect` is
assigned the same ephemeral local address, and binding that port still
succeeds. -/
theorem tcp_connect_frame (inner : Inner) (a : SocketAddr) (strm : TcpData)
    (inner' : Inner) (hnp : 1 ≤ inner.next_port)
    (hok : tcp_connect inner a = .ok (strm, inner')) :
    inner'.ports.map Prod.fst = inner.ports.map Prod.fst ∧
    (∀ k, k ≠ ⟨Protocol.tcp, a.port⟩ →
      lookupKey inner'.ports k = lookupKey inner.ports k) ∧
    containsKey inner'.ports strm.local_addr = false ∧
    (∃ strm2 inner2, tcp_connect inner' a = .ok (strm2, inner2) ∧
      strm2.local_addr = strm.local_addr) ∧
    (∃ inner3, tcp_bind inner' ⟨localhost, strm.local_addr.num⟩
      = .ok (strm.local_addr, inner3)) := by
  obtain ⟨q, hch, hlk, hstrm, hfree, hinner⟩ :=
    tcp_connect_ok_inv inner a strm inner' hok
  have hple := (nextPort_free inner Protocol.udp).2
  have hfreeUdp := (nextPort_free inner Protocol.udp).1
  subst hstrm
  subst hinner
  have hkeys : (updateKey inner.ports ⟨Protocol.tcp, a.port⟩
      (pushPending (TcpData.swap ⟨[], ⟨Protocol.tcp,
        (inner.nextPort Protocol.udp).1⟩, ⟨Protocol.tcp, a.port⟩⟩))).map
      Prod.fst = inner.ports.map Prod.fst := updateKey_keys _ _ _
  have hcong : ∀ k, containsKey (updateKey inner.ports ⟨Protocol.tcp, a.port⟩
      (pushPending (TcpData.swap ⟨[], ⟨Protocol.tcp,
        (inner.nextPort Protocol.udp).1⟩, ⟨Protocol.tcp, a.port⟩⟩))) k
      = containsKey inner.ports k :=
    fun k => containsKey_congr _ _ k hkeys
  have hfu2 : containsKey (updateKey inner.ports ⟨Protocol.tcp, a.port⟩
      (pushPending (TcpData.swap ⟨[], ⟨Protocol.tcp,
        (inner.nextPort Protocol.udp).1⟩, ⟨Protocol.tcp, a.port⟩⟩)))
      ⟨Protocol.udp, (inner.nextPort Protocol.udp).1⟩ = false := by
    rw [hcong]
    exact hfreeUdp
  have hft2 : containsKey (updateKey inner.ports ⟨Protocol.tcp, a.port⟩
      (pushPending (TcpData.swap ⟨[], ⟨Protocol.tcp,
        (inner.nextPort Protocol.udp).1⟩, ⟨Protocol.tcp, a.port⟩⟩)))
      ⟨Protocol.tcp, (inner.nextPort Protocol.udp).1⟩ = false := by
    rw [hcong]
    exact hfree
  have hlk2 : lookupKey (updateKey inner.ports ⟨Protocol.tcp, a.port⟩
      (pushPending (TcpData.swap ⟨[], ⟨Protocol.tcp,
        (inner.nextPort Protocol.udp).1⟩, ⟨Protocol.tcp, a.port⟩⟩)))
      ⟨Protocol.tcp, a.port⟩
      = some (Value.tcpListener (q ++ [TcpData.swap ⟨[], ⟨Protocol.tcp,
          (inner.nextPort Protocol.udp).1⟩, ⟨Protocol.tcp, a.port⟩⟩])) := by
    rw [lookupKey_updateKey_self, hlk]
    rfl
  have hp2 : (((inner.nextPort Protocol.udp).1 == 0) = false) := by
    have hp1 : 1 ≤ (inner.nextPort Protocol.udp).1 := le_trans hnp hple
    cases hpe : ((inner.nextPort Protocol.udp).1 == 0) with
    | false => rfl
    | true =>
      have hx : (inner.nextPort Protocol.udp).1 = 0 := by simpa using hpe
      omega
  refine ⟨hkeys, ?_, ?_, ?_, ?_⟩
  · intro k hk
    exact lookupKey_updateKey_ne _ _ _ _ hk
  · rw [hcong]
    exact hfree
  · exact ⟨_, _, tcp_connect_again _ _ a _ hch hfu2 hft2 hlk2, rfl⟩
  · exact ⟨_, tcp_bind_after _ _ hp2 hft2⟩

/-- Witness for C10: on a host with a listener at port 80 and
`next_port = 1`, a connect assigns ephemeral port 1, a second connect
assigns port 1 again, and binding `127.0.0.1:1` afterwards succeeds. -/
theorem tcp_connect_frame_witness :
    1 ≤ (⟨[(⟨Protocol.tcp, 80⟩, Value.tcpListener [])], 1⟩ : Inner).next_port ∧
    tcp_connect ⟨[(⟨Protocol.tcp, 80⟩, Value.tcpListener [])], 1⟩
        ⟨localhost, 80⟩
      = .ok (⟨[], ⟨Protocol.tcp, 1⟩, ⟨Protocol.tcp, 80⟩⟩,
          ⟨[(⟨Protocol.tcp, 80⟩,
            Value.tcpListener [⟨[], ⟨Protocol.tcp, 80⟩, ⟨Protocol.tcp, 1⟩⟩])],
           1⟩) ∧
    ((⟨[(⟨Protocol.tcp, 80⟩,
        Value.tcpListener [⟨[], ⟨Protocol.tcp, 80⟩, ⟨Protocol.tcp, 1⟩⟩])],
        1⟩ : Inner).ports.map Prod.fst
      = (⟨[(⟨Protocol.tcp, 80⟩, Value.tcpListener [])], 1⟩ : Inner).ports.map
          Prod.fst ∧
      (∀ k, k ≠ ⟨Protocol.tcp, 80⟩ →
        lookupKey [(⟨Protocol.tcp, 80⟩,
          Value.tcpListener [⟨[], ⟨Protocol.tcp, 80⟩, ⟨Protocol.tcp, 1⟩⟩])] k
          = lookupKey [(⟨Protocol.tcp, 80⟩, Value.tcpListener [])] k) ∧
      containsKey [(⟨Protocol.tcp, 80⟩,
          Value.tcpListener [⟨[], ⟨Protocol.tcp, 80⟩, ⟨Protocol.tcp, 1⟩⟩])]
        (⟨[], ⟨Protocol.tcp, 1⟩,
          (⟨Protocol.tcp, 80⟩ : Port)⟩ : TcpData).local_addr = false ∧
      (∃ strm2 inner2, tcp_connect ⟨[(⟨Protocol.tcp, 80⟩,
          Value.tcpListener [⟨[], ⟨Protocol.tcp, 80⟩, ⟨Protocol.tcp, 1⟩⟩])],
          1⟩ ⟨localhost, 80⟩ = .ok (strm2, inner2) ∧
        strm2.local_addr = (⟨[], ⟨Protocol.tcp, 1⟩,
          (⟨Protocol.tcp, 80⟩ : Port)⟩ : TcpData).local_addr) ∧
      (∃ inner3, tcp_bind ⟨[(⟨Protocol.tcp, 80⟩,
          Value.tcpListener [⟨[], ⟨Protocol.tcp, 80⟩, ⟨Protocol.tcp, 1⟩⟩])],
          1⟩ ⟨localhost, (⟨[], ⟨Protocol.tcp, 1⟩,
            (⟨Protocol.tcp, 80⟩ : Port)⟩ : TcpData).local_addr.num⟩
        = .ok ((⟨[], ⟨Protocol.tcp, 1⟩,
            (⟨Protocol.tcp, 80⟩ : Port)⟩ : TcpData).local_addr, inner3))) :=
  ⟨by decide, rfl, tcp_connect_frame
    ⟨[(⟨Protocol.tcp, 80⟩, Value.tcpListener [])], 1⟩ ⟨localhost, 80⟩
    ⟨[], ⟨Protocol.tcp, 1⟩, ⟨Protocol.tcp, 80⟩⟩
    ⟨[(⟨Protocol.tcp, 80⟩,
      Value.tcpListener [⟨[], ⟨Protocol.tcp, 80⟩, ⟨Protocol.tcp, 1⟩⟩])], 1⟩
    (by decide) rfl⟩

/-! ### Stream pipe lemmas -/

/-- Writes on an open channel queue the chunks in order. -/
theorem write_all_queue (bufs : List (List Nat)) (q : List (List Nat)) :
    TcpStream.write_all ⟨q, false⟩ bufs = ⟨q ++ bufs, false⟩ := by
  induction bufs generalizing q with
  | nil => simp [TcpStream.write_all]
  | cons b bs ih =>
    show TcpStream.write_all ⟨q ++ [b], false⟩ bs = _
    rw [ih]
    simp

/-- One read step conserves the undelivered bytes and the closed flag. -/
theorem poll_read_conserve (s : TcpReadState) (f n : Nat) :
    (TcpStream.poll_read s f n).1.bytes
        ++ pendingBytes (TcpStream.poll_read s f n).2 = pendingBytes s ∧
    (TcpStream.poll_read s f n).2.rx.closed = s.rx.closed := by
  obtain ⟨buf, qu, cl⟩ := s
  cases buf with
  | nil =>
    cases qu with
    | nil =>
      cases cl <;>
        simp [TcpStream.poll_read, ReadPoll.bytes, pendingBytes]
    | cons c rest =>
      constructor
      · show (c.take (min c.length n)) ++ ((c.drop (min c.length n))
            ++ (rest.flatten)) = [] ++ (c ++ rest.flatten)
        rw [← List.append_assoc, List.take_append_drop]
        simp
      · rfl
  | cons b bs =>
    constructor
    · show ((b :: bs).take (min (min (max f 1) (b :: bs).length) n))
          ++ (((b :: bs).drop (min (min (max f 1) (b :: bs).length) n))
            ++ qu.flatten)
        = (b :: bs) ++ qu.flatten
      rw [← List.append_assoc, List.take_append_drop]
    · rfl

/-- Once the channel is drained and closed, a read returns `Ok(0)` and
changes nothing. -/
theorem poll_read_done (s : TcpReadState) (f n : Nat)
    (hcl : s.rx.closed = true) (hm : readMeasure s = 0) :
    TcpStream.poll_read s f n = (.ok [], s) := by
  obtain ⟨buf, qu, cl⟩ := s
  simp only [readMeasure] at hm
  have hbuf : buf = [] := List.eq_nil_of_length_eq_zero (by omega)
  have hqu : qu = [] := List.eq_nil_of_length_eq_zero (by omega)
  subst hbuf
  subst hqu
  simp only at hcl
  subst hcl
  rfl

/-- A read with a nonempty caller buffer makes progress while bytes or
chunks remain. -/
theorem poll_read_decrease (s : TcpReadState) (f n : Nat) (hn : 1 ≤ n)
    (hm : 0 < readMeasure s) :
    readMeasure (TcpStream.poll_read s f n).2 < readMeasure s := by
  obtain ⟨buf, qu, cl⟩ := s
  cases buf with
  | nil =>
    cases qu with
    | nil => simp [readMeasure] at hm
    | cons c rest =>
      show readMeasure ⟨c.drop (min c.length n), rest, cl⟩
          < readMeasure ⟨[], ⟨c :: rest, cl⟩⟩
      simp only [readMeasure, List.length_drop, List.flatten_cons,
        List.length_nil, List.length_cons, List.length_append]
      omega
  | cons b bs =>
    show readMeasure ⟨(b :: bs).drop (min (min (max f 1) (b :: bs).length) n),
        qu, cl⟩ < readMeasure ⟨b :: bs, ⟨qu, cl⟩⟩
    have hpos : 1 ≤ min (min (max f 1) (b :: bs).length) n := by
      have h1 : 1 ≤ max f 1 := le_max_right f 1
      have h2 : 1 ≤ (b :: bs).length := by simp
      omega
    simp only [readMeasure, List.length_drop, List.length_cons]
    omega

/-- Draining conserves undelivered bytes and the closed flag. -/
theorem drainReads_conserve (sched : List (Nat × Nat)) (s : TcpReadState) :
    (TcpStream.drainReads s sched).1.flatten
        ++ pendingBytes (TcpStream.drainReads s sched).2 = pendingBytes s ∧
    (TcpStream.drainReads s sched).2.rx.closed = s.rx.closed := by
  induction sched generalizing s with
  | nil => simp [TcpStream.drainReads]
  | cons r rest ih =>
    have hstep := poll_read_conserve s r.1 r.2
    have htail := ih (TcpStream.poll_read s r.1 r.2).2
    constructor
    · show ((TcpStream.poll_read s r.1 r.2).1.bytes
          :: (TcpStream.drainReads (TcpStream.poll_read s r.1 r.2).2 rest).1).flatten
          ++ pendingBytes (TcpStream.drainReads
              (TcpStream.poll_read s r.1 r.2).2 rest).2
        = pendingBytes s
      rw [List.flatten_cons, List.append_assoc, htail.1]
      exact hstep.1
    · show (TcpStream.drainReads (TcpStream.poll_read s r.1 r.2).2 rest).2.rx.closed
        = _
      rw [htail.2, hstep.2]

/-- A long-enough schedule of nonempty reads drains everything. -/
theorem drainReads_done (sched : List (Nat × Nat)) (s : TcpReadState)
    (hcl : s.rx.closed = true) (hn : ∀ r ∈ sched, 1 ≤ r.2)
    (hlen : readMeasure s ≤ sched.length) :
    readMeasure (TcpStream.drainReads s sched).2 = 0 := by
  induction sched generalizing s with
  | nil =>
    simpa using hlen
  | cons r rest ih =>
    have hrec : ∀ x ∈ rest, 1 ≤ x.2 :=
      fun x hx => hn x (List.mem_cons_of_mem r hx)
    show readMeasure (TcpStream.drainReads
        (TcpStream.poll_read s r.1 r.2).2 rest).2 = 0
    by_cases hm : readMeasure s = 0
    · rw [poll_read_done s r.1 r.2 hcl hm]
      exact ih s hcl hrec (by omega)
    · exact ih (TcpStream.poll_read s r.1 r.2).2
        ((poll_read_conserve s r.1 r.2).2.trans hcl)
        hrec
        (by
          have hdec := poll_read_decrease s r.1 r.2
            (hn r (List.mem_cons_self r rest)) (Nat.pos_of_ne_zero hm)
          have hlen2 : readMeasure s ≤ rest.length + 1 := by simpa using hlen
          omega)

/-- Claim C1: writing any chunks to one end of a virtual-host TCP stream and
closing its write half makes the peer's reads (any positive buffer sizes,
any carry-buffer slicing, schedule long enough to drain) return exactly the
written bytes in order, after which `poll_read` returns `Ok(0)` (EOF). -/
theorem tcp_stream_bytes_in_order (bufs : List (List Nat))
    (sched : List (Nat × Nat))
    (hn : ∀ r ∈ sched, 1 ≤ r.2)
    (hlen : bufs.flatten.length + bufs.length ≤ sched.length) :
    (TcpStream.drainReads
        ⟨[], TcpStream.poll_close (TcpStream.write_all ⟨[], false⟩ bufs)⟩
        sched).1.flatten = bufs.flatten ∧
    (TcpStream.drainReads
        ⟨[], TcpStream.poll_close (TcpStream.write_all ⟨[], false⟩ bufs)⟩
        sched).2.buf = [] ∧
    (TcpStream.drainReads
        ⟨[], TcpStream.poll_close (TcpStream.write_all ⟨[], false⟩ bufs)⟩
        sched).2.rx.queue = [] ∧
    TcpStream.poll_read (TcpStream.drainReads
        ⟨[], TcpStream.poll_close (TcpStream.write_all ⟨[], false⟩ bufs)⟩
        sched).2 1 1
      = (.ok [], (TcpStream.drainReads
          ⟨[], TcpStream.poll_close (TcpStream.write_all ⟨[], false⟩ bufs)⟩
          sched).2) := by
  have hinit : (⟨[], TcpStream.poll_close
      (TcpStream.write_all ⟨[], false⟩ bufs)⟩ : TcpReadState)
      = ⟨[], ⟨bufs, true⟩⟩ := by
    rw [show TcpStream.write_all ⟨[], false⟩ bufs = ⟨bufs, false⟩ from
      by simpa using write_all_queue bufs []]
    rfl
  rw [hinit]
  have hmeas0 : readMeasure ⟨[], ⟨bufs, true⟩⟩
      = bufs.flatten.length + bufs.length := by
    simp [readMeasure]
  have hdone := drainReads_done sched ⟨[], ⟨bufs, true⟩⟩ rfl hn
    (by rw [hmeas0]; exact hlen)
  have hcons := drainReads_conserve sched ⟨[], ⟨bufs, true⟩⟩
  have hb0 : (TcpStream.drainReads ⟨[], ⟨bufs, true⟩⟩ sched).2.buf.length = 0 := by
    simp only [readMeasure] at hdone
    omega
  have hq0 : (TcpStream.drainReads ⟨[], ⟨bufs, true⟩⟩ sched).2.rx.queue.length
      = 0 := by
    simp only [readMeasure] at hdone
    omega
  have hbuf := List.length_eq_zero.mp hb0
  have hqueue := List.length_eq_zero.mp hq0
  have hclosed : (TcpStream.drainReads ⟨[], ⟨bufs, true⟩⟩ sched).2.rx.closed
      = true := hcons.2
  refine ⟨?_, hbuf, hqueue, poll_read_done _ 1 1 hclosed hdone⟩
  have h := hcons.1
  simp only [pendingBytes, hbuf, hqueue] at h
  simpa using h

/-- Witness for C1: chunks `[1,2,3]` and `[4]` written then closed, read
with a mix of buffer sizes and slice hints, come back as exactly
`[1,2,3,4]` followed by EOF. -/
theorem tcp_stream_bytes_in_order_witness :
    (∀ r ∈ ([(1, 2), (5, 1), (9, 4), (3, 1), (2, 2), (1, 1)] :
        List (Nat × Nat)), 1 ≤ r.2) ∧
    ([[1, 2, 3], [4]] : List (List Nat)).flatten.length
        + ([[1, 2, 3], [4]] : List (List Nat)).length
      ≤ ([(1, 2), (5, 1), (9, 4), (3, 1), (2, 2), (1, 1)] :
          List (Nat × Nat)).length ∧
    ((TcpStream.drainReads
        ⟨[], TcpStream.poll_close
          (TcpStream.write_all ⟨[], false⟩ [[1, 2, 3], [4]])⟩
        [(1, 2), (5, 1), (9, 4), (3, 1), (2, 2), (1, 1)]).1.flatten
      = ([[1, 2, 3], [4]] : List (List Nat)).flatten ∧
    (TcpStream.drainReads
        ⟨[], TcpStream.poll_close
          (TcpStream.write_all ⟨[], false⟩ [[1, 2, 3], [4]])⟩
        [(1, 2), (5, 1), (9, 4), (3, 1), (2, 2), (1, 1)]).2.buf = [] ∧
    (TcpStream.drainReads
        ⟨[], TcpStream.poll_close
          (TcpStream.write_all ⟨[], false⟩ [[1, 2, 3], [4]])⟩
        [(1, 2), (5, 1), (9, 4), (3, 1), (2, 2), (1, 1)]).2.rx.queue = [] ∧
    TcpStream.poll_read (TcpStream.drainReads
        ⟨[], TcpStream.poll_close
          (TcpStream.write_all ⟨[], false⟩ [[1, 2, 3], [4]])⟩
        [(1, 2), (5, 1), (9, 4), (3, 1), (2, 2), (1, 1)]).2 1 1
      = (.ok [], (TcpStream.drainReads
          ⟨[], TcpStream.poll_close
            (TcpStream.write_all ⟨[], false⟩ [[1, 2, 3], [4]])⟩
          [(1, 2), (5, 1), (9, 4), (3, 1), (2, 2), (1, 1)]).2)) :=
  ⟨by decide, by decide,
    tcp_stream_bytes_in_order [[1, 2, 3], [4]]
      [(1, 2), (5, 1), (9, 4), (3, 1), (2, 2), (1, 1)]
      (by decide) (by decide)⟩

end RDP
